import Mathlib


/-!
Shallow embedding of the data-ingestion layer of `dashboard_moraes.py`
(the functions `_find_header_row`, `_clean_currency`, `_clean_pct`,
`load_sheet`, `load_vendidos_tables`), together with theorems settling
the specification claims about that layer.

Modelling conventions:
* a worksheet grid is a `List (List String)` of cell strings;
* a pandas DataFrame produced by a loader is a `Table` (column names
  plus rows of nullable cells, `Option String`);
* Python `float` values are modelled exactly as rationals; the builtin
  `float(s)` parser is modelled on finite decimal literals (optional
  sign, digits, optional fraction, optional exponent); the non-finite
  literals `inf`/`nan` and digit-group underscores are outside the
  model and are treated as parse failures;
* a pandas operation that raises an exception inside the loader `try:`
  block is modelled by `Option.none` from the loader core, which the
  outer loader turns into the empty-table error result, mirroring the
  `except` clauses of the source.
-/

/-! ## Python string primitives -/

/-- Whitespace-trimming on character lists, modelling Python `str.strip()`
(restricted to ASCII whitespace): drop whitespace from both ends. -/
def pyStripL (l : List Char) : List Char :=
  ((l.dropWhile Char.isWhitespace).reverse.dropWhile Char.isWhitespace).reverse

/-- Python `str.strip()` on strings. -/
def pyStrip (s : String) : String :=
  ⟨pyStripL s.data⟩

/-- Python `str.lower()` (character-wise lowercasing, ASCII-adequate). -/
def pyLower (s : String) : String :=
  ⟨s.data.map Char.toLower⟩

/-- Python `str.replace(c, "")`: remove every occurrence of a character. -/
def pyRemove (s : String) (c : Char) : String :=
  ⟨s.data.filter (fun d => d ≠ c)⟩

/-- Decides whether `n` is a prefix of `h` (character lists). -/
def prefixOfL : List Char → List Char → Bool
  | [], _ => true
  | _ :: _, [] => false
  | a :: as, b :: bs => a = b && prefixOfL as bs

/-- Decides whether `n` occurs as a contiguous substring of `h`,
modelling the Python `in` operator on strings. -/
def infixOfL (n : List Char) : List Char → Bool
  | [] => prefixOfL n []
  | c :: cs => prefixOfL n (c :: cs) || infixOfL n cs

/-- Case-insensitive containment test `marker.lower() in cell.lower()`
used by `_find_header_row`. -/
def containsCI (cell marker : String) : Bool :=
  infixOfL (pyLower marker).data (pyLower cell).data

/-! ## Decimal rendering of naturals, modelling Python `str(n)` for the
duplicate-column suffixes `f"{name}_{n}"`. -/

/-- Character for a single decimal digit value. -/
def digitChar (d : Nat) : Char :=
  Char.ofNat (48 + d)

/-- Decimal digit expansion with explicit fuel (structural recursion, so the
kernel can evaluate it); `fuel ≥ n` always suffices. -/
def natDigitsAux (fuel : Nat) (n : Nat) : List Char :=
  match fuel with
  | 0 => [digitChar n]
  | fuel + 1 =>
    if n < 10 then [digitChar n]
    else natDigitsAux fuel (n / 10) ++ [digitChar (n % 10)]

/-- Decimal digit expansion of a natural number, most significant first. -/
def natDigitsL (n : Nat) : List Char :=
  natDigitsAux n n

/-- Decimal rendering of a natural number. -/
def natToStr (n : Nat) : String :=
  ⟨natDigitsL n⟩

/-! ## Exact model of Python `float()` on finite decimal literals -/

/-- Numeric value of a list of decimal digit characters read left to right. -/
def digitsVal (l : List Char) : Nat :=
  l.foldl (fun a c => 10 * a + (c.toNat - 48)) 0

/-- Exact value of a finite Python float literal: `(-1)^neg * num / 10^exp10`.
Keeping the three components as integers lets every parse result be computed
by kernel reduction; conversion to `ℚ` happens only in `PyFloat.toRat`. -/
structure PyFloat where
  neg : Bool
  num : Nat
  exp10 : Nat
  deriving DecidableEq

/-- Power of ten as a rational. -/
def pow10 (n : Nat) : ℚ :=
  ((10 ^ n : ℕ) : ℚ)

/-- Rational value of a parsed float literal. -/
def PyFloat.toRat (f : PyFloat) : ℚ :=
  (if f.neg then -1 else 1) * (f.num : ℚ) / pow10 f.exp10

/-- Fractional digits of a float literal, read from the remainder after the
integer digits: present only when that remainder starts with a dot. -/
def fracPartOf (r1 : List Char) : List Char :=
  if r1.head? = some '.' then r1.tail.takeWhile Char.isDigit else []

/-- Remainder of a float literal after integer and fractional digits. -/
def restAfterFrac (r1 : List Char) : List Char :=
  if r1.head? = some '.' then r1.tail.dropWhile Char.isDigit else r1

/-- Exponent digits of a float literal after the `e`, skipping one sign. -/
def expBody (r3 : List Char) : List Char :=
  if r3.head? = some '-' ∨ r3.head? = some '+' then r3.tail else r3

/-- Applies an exponent suffix `r3` (already past the `e`) to a parsed
mantissa: a negative exponent deepens the denominator, a positive one
multiplies the numerator. -/
def pyExpAdjust (neg : Bool) (num : Nat) (exp10 : Nat) (r3 : List Char) : Option PyFloat :=
  if (expBody r3).takeWhile Char.isDigit = [] ∨ (expBody r3).dropWhile Char.isDigit ≠ [] then
    none
  else if r3.head? = some '-' then
    some ⟨neg, num, exp10 + digitsVal ((expBody r3).takeWhile Char.isDigit)⟩
  else some ⟨neg, num * 10 ^ digitsVal ((expBody r3).takeWhile Char.isDigit), exp10⟩

/-- Parses the part of a float literal after the optional sign:
digits, an optional fraction, and an optional exponent; at least one
mantissa digit is required. -/
def pyFloatAux (l : List Char) (neg : Bool) : Option PyFloat :=
  if l.takeWhile Char.isDigit = [] ∧ fracPartOf (l.dropWhile Char.isDigit) = [] then none
  else if restAfterFrac (l.dropWhile Char.isDigit) = [] then
    some ⟨neg, digitsVal (l.takeWhile Char.isDigit ++ fracPartOf (l.dropWhile Char.isDigit)),
      (fracPartOf (l.dropWhile Char.isDigit)).length⟩
  else if (restAfterFrac (l.dropWhile Char.isDigit)).head? = some 'e' ∨
      (restAfterFrac (l.dropWhile Char.isDigit)).head? = some 'E' then
    pyExpAdjust neg
      (digitsVal (l.takeWhile Char.isDigit ++ fracPartOf (l.dropWhile Char.isDigit)))
      (fracPartOf (l.dropWhile Char.isDigit)).length
      ((restAfterFrac (l.dropWhile Char.isDigit)).tail)
  else none

/-- Model of the Python builtin `float(s)` on finite decimal literals:
surrounding whitespace is ignored, then an optional sign is read, then
`pyFloatAux` parses the digits. Returns `none` where `float` raises
`ValueError` (and on the non-finite literals excluded from the model). -/
def pyFloat? (s : String) : Option PyFloat :=
  if (pyStripL s.data).head? = some '+' then pyFloatAux (pyStripL s.data).tail false
  else if (pyStripL s.data).head? = some '-' then pyFloatAux (pyStripL s.data).tail true
  else pyFloatAux (pyStripL s.data) false

/-! ## The two value parsers of the dashboard -/

/-- Model of `_clean_currency`: `None`/missing gives `0.0`; otherwise strip
the string, delete every dollar sign and space, delete every comma, and
parse with `float`, returning `0.0` on `ValueError`. -/
def clean_currency (val : Option String) : ℚ :=
  match val with
  | none => 0
  | some v =>
    let s := pyRemove (⟨(pyStrip v).data.filter (fun c => ¬(c = '$' ∨ c = ' '))⟩ : String) ','
    match pyFloat? s with
    | none => 0
    | some f => f.toRat

/-- Model of `_clean_pct`: `None`/missing gives `0.0`; otherwise strip the
string, delete every percent sign, parse with `float`; on success return
`v / 100` when `abs v > 5` and `v` unchanged otherwise, and `0.0` on
`ValueError`. -/
def clean_pct (val : Option String) : ℚ :=
  match val with
  | none => 0
  | some v =>
    let s := pyRemove (pyStrip v) '%'
    match pyFloat? s with
    | none => 0
    | some f => if 5 < |f.toRat| then f.toRat / 100 else f.toRat

/-! ## Duplicate-column renaming

The loaders rename duplicate column headers with a dict `seen` mapping each
name to the number of occurrences already replaced: a first occurrence keeps
the bare name (storing 0), a later occurrence of the same name gets suffix
`_k` where `k` is the incremented counter. -/

/-- One pass of the renaming loop; `seen` models the Python dict. -/
def dedupGo (seen : String → Option Nat) : List String → List String
  | [] => []
  | c :: cs =>
    match seen c with
    | some n =>
      (c ++ "_" ++ natToStr (n + 1)) :: dedupGo (fun x => if x = c then some (n + 1) else seen x) cs
    | none => c :: dedupGo (fun x => if x = c then some 0 else seen x) cs

/-- Column-name de-duplication as performed by both loaders (on names that
are already stripped where the loader strips them). -/
def dedupNames (l : List String) : List String :=
  dedupGo (fun _ => none) l

/-! ## Tables and the header locator -/

/-- A normalized table: named columns and rows of nullable cells, modelling
the DataFrame a loader returns. -/
structure Table where
  cols : List String
  rows : List (List (Option String))
  deriving DecidableEq

/-- The empty table `pd.DataFrame()`. -/
def Table.empty : Table :=
  ⟨[], []⟩

/-- One row of the header search: does any cell contain the marker
case-insensitively? -/
def rowHasMarker (marker : String) (row : List String) : Bool :=
  row.any (fun cell => containsCI cell marker)

/-- Index search of `_find_header_row`: first matching row, if any. -/
def findHeaderRowAux (marker : String) : List (List String) → Option Nat
  | [] => none
  | row :: rest =>
    if rowHasMarker marker row then some 0
    else (findHeaderRowAux marker rest).map (· + 1)

/-- Model of `_find_header_row`: index of the first row with a cell that
contains the marker case-insensitively, and `0` when no row matches. -/
def findHeaderRow (grid : List (List String)) (marker : String) : Nat :=
  (findHeaderRowAux marker grid).getD 0

/-- Replacement of empty-string cells by null, modelling
`.replace("", None)` (padding cells beyond a short row are also `""`). -/
def emptyToNone (s : String) : Option String :=
  if s = "" then none else some s

/-! ## The single-table loader `load_sheet` -/

/-- Indices of header cells whose stripped name is nonempty; the other
columns are dropped by `df.loc[:, df.columns.str.strip() != ""]`. -/
def keptIdxs (headers : List String) : List Nat :=
  (List.range headers.length).filter (fun i => pyStrip (headers.getD i "") ≠ "")

/-- The stripped names of the kept columns, in order; `load_sheet` strips
each name (`c.strip()`) before de-duplicating. -/
def headerNames (headers : List String) : List String :=
  (keptIdxs headers).map (fun i => pyStrip (headers.getD i ""))

/-- Projection of one data row onto the kept columns, with cells missing
from a short row read as `""` (pandas pads short rows with null) and empty
cells replaced by null. -/
def projRow (headers : List String) (r : List String) : List (Option String) :=
  (keptIdxs headers).map (fun i => emptyToNone (r.getD i ""))

/-- Greatest row length, the width pandas infers for a list-of-lists. -/
def maxRowLen (data : List (List String)) : Nat :=
  data.foldr (fun r m => max r.length m) 0

/-- Header row selected by `load_sheet` for a grid. -/
def sheetHeaders (grid : List (List String)) (marker : String) : List String :=
  grid.getD (findHeaderRow grid marker) []

/-- Data rows selected by `load_sheet` for a grid: everything below the
header row. -/
def sheetData (grid : List (List String)) (marker : String) : List (List String) :=
  grid.drop (findHeaderRow grid marker + 1)

/-- Core of `load_sheet` on a fetched grid: locate the header row, build the
DataFrame (which raises — modelled as `none` — unless the inferred data
width equals the header length), drop blank-named columns, strip and
de-duplicate the remaining names, replace `""` by null and drop all-null
rows. -/
def loadSheetCore (grid : List (List String)) (marker : String) : Option Table :=
  if grid.isEmpty then some Table.empty
  else if (sheetData grid marker).isEmpty then some Table.empty
  else if maxRowLen (sheetData grid marker) ≠ (sheetHeaders grid marker).length then none
  else some
    { cols := dedupNames (headerNames (sheetHeaders grid marker))
      rows := ((sheetData grid marker).map (projRow (sheetHeaders grid marker))).filter
        (fun r => r.any Option.isSome) }

/-! ## The dual-table loader `load_vendidos_tables` -/

/-- Column window of the sales block, `list(range(1, 9))`. -/
def vIdxs : List Nat :=
  List.range' 1 8

/-- Column window of the expenses block, `list(range(13, 21))`. -/
def gIdxs : List Nat :=
  List.range' 13 8

/-- Stripped header names of one block:
`[headers[i].strip() for i in idxs if i < len(headers)]`. -/
def blockHeaders (headers : List String) (idxs : List Nat) : List String :=
  (idxs.filter (fun i => i < headers.length)).map (fun i => pyStrip (headers.getD i ""))

/-- One data row of one block:
`[row[i] if i < len(row) else "" for i in idxs]`, with the subsequent
`.replace("", None)` applied cell-wise. -/
def blockRow (r : List String) (idxs : List Nat) : List (Option String) :=
  idxs.map (fun i => emptyToNone (r.getD i ""))

/-- Row filter of the sales block: `dropna(subset=[fc])` then drop rows
whose stripped, lowercased first cell is `"total"` or `""`. -/
def vKeepCell (c : Option String) : Bool :=
  match c with
  | none => false
  | some s => !((pyLower (pyStrip s) == "total") || (pyLower (pyStrip s) == ""))

/-- Row filter of the expenses block: `dropna(subset=[fg])` then drop rows
whose stripped first cell is `""`. -/
def gKeepCell (c : Option String) : Bool :=
  match c with
  | none => false
  | some s => !(pyStrip s == "")

/-- Core of `load_vendidos_tables` on a fetched grid. The `none` results
model the exceptions the pandas calls raise inside the `try:` block: a
block whose header window yields fewer than 8 names cannot index the
8-wide data (`DataFrame` constructor raises), and a duplicated first
column label makes `df[fc].str` raise — but only when that block's filter
actually runs: the source guards each block's filtering with `if fc:` /
`if fg:`, so a block whose first stripped header name is the empty string
(falsy in Python) skips its row filter entirely and keeps every projected
row. The next four definitions name the pieces; `loadVendidosCore`
assembles them. -/
def vendHeaders (grid : List (List String)) : List String :=
  grid.getD (findHeaderRow grid "Producto") []

/-- Data rows selected by `load_vendidos_tables`. -/
def vendData (grid : List (List String)) : List (List String) :=
  grid.drop (findHeaderRow grid "Producto" + 1)

/-- Stripped header names of the sales block of a grid. -/
def vNames (grid : List (List String)) : List String :=
  blockHeaders (vendHeaders grid) vIdxs

/-- Stripped header names of the expenses block of a grid. -/
def gNames (grid : List (List String)) : List String :=
  blockHeaders (vendHeaders grid) gIdxs

def loadVendidosCore (grid : List (List String)) : Option (Table × Table) :=
  if grid.isEmpty then some (Table.empty, Table.empty)
  else if (vendData grid).isEmpty then some (Table.empty, Table.empty)
  else if (vNames grid).length ≠ 8 ∨ (gNames grid).length ≠ 8 then none
  else if ((vNames grid).getD 0 "" ≠ "" ∧
        (vNames grid).countP (fun x => x = (vNames grid).getD 0 "") ≠ 1) ∨
      ((gNames grid).getD 0 "" ≠ "" ∧
        (gNames grid).countP (fun x => x = (gNames grid).getD 0 "") ≠ 1) then none
  else some
    (⟨dedupNames (vNames grid),
      if (vNames grid).getD 0 "" ≠ "" then
        ((vendData grid).map (fun r => blockRow r vIdxs)).filter
          (fun r => vKeepCell (r.getD 0 none))
      else (vendData grid).map (fun r => blockRow r vIdxs)⟩,
     ⟨dedupNames (gNames grid),
      if (gNames grid).getD 0 "" ≠ "" then
        ((vendData grid).map (fun r => blockRow r gIdxs)).filter
          (fun r => gKeepCell (r.getD 0 none))
      else (vendData grid).map (fun r => blockRow r gIdxs)⟩)

/-! ## Failure policy of the loaders -/

/-- Outcome of one fetch from the data source, the distinguishable signals
`gspread` raises. -/
inductive Fetch where
  | ok (grid : List (List String))
  | worksheetNotFound
  | spreadsheetNotFound
  | otherError
  deriving DecidableEq

/-- Kind of user-facing notice a loader emits (`st.warning` / `st.error`). -/
inductive NoticeKind where
  | warning
  | error
  deriving DecidableEq

/-- Observable outcome of one loader call: either the rendering pass is
halted (`st.stop()`), or a value is returned together with at most one
notice. -/
inductive Outcome (α : Type) where
  | halted
  | returned (notice : Option NoticeKind) (val : α)
  deriving DecidableEq

/-- The sheet-name to marker-token map `EXPECTED_HEADERS`. -/
def EXPECTED_HEADERS : List (String × String) :=
  [("Vendidos", "Producto"), ("Pedidos", "Producto"),
   ("Modelo Unitario de Rentabilidad", "Producto"), ("proveedores", "Proveedor")]

/-- Marker lookup `EXPECTED_HEADERS.get(sheet_name, "Producto")`. -/
def expectedMarker (sheetName : String) : String :=
  (EXPECTED_HEADERS.lookup sheetName).getD "Producto"

/-- Model of `load_sheet` including its `except` chain: a missing worksheet
warns and returns an empty table, a missing spreadsheet halts the pass
(`st.stop()`), any other fetch error — and any exception raised inside the
`try:` block, modelled by `loadSheetCore = none` — reports an error and
returns an empty table. -/
def load_sheet (sheetName : String) (f : Fetch) : Outcome Table :=
  match f with
  | .ok grid =>
    match loadSheetCore grid (expectedMarker sheetName) with
    | some t => .returned none t
    | none => .returned (some .error) Table.empty
  | .worksheetNotFound => .returned (some .warning) Table.empty
  | .spreadsheetNotFound => .halted
  | .otherError => .returned (some .error) Table.empty

/-- Model of `load_vendidos_tables` including its single generic
`except Exception` clause: every failure, fetch-level or internal, reports
an error and returns a pair of empty tables. -/
def load_vendidos_tables (f : Fetch) : Outcome (Table × Table) :=
  match f with
  | .ok grid =>
    match loadVendidosCore grid with
    | some p => .returned none p
    | none => .returned (some .error) (Table.empty, Table.empty)
  | _ => .returned (some .error) (Table.empty, Table.empty)

/-! ## Lemmas about duplicate-column renaming -/

/-- Number of occurrences already seen, as recorded by the dict state. -/
def occOf : Option Nat → Nat
  | none => 0
  | some n => n + 1

/-! ## The percent parser against its specification sentence -/

/-- Percent parsing as the specification words it: strip the percent signs
and the surrounding whitespace, parse as a float; parse failure or missing
input gives `0.0`, a value of magnitude above 5 is divided by 100, any
other value is returned unchanged. Written from the specification for
comparison with the code model `clean_pct`. -/
def parsePercentSpec (val : Option String) : ℚ :=
  match val with
  | none => 0
  | some v =>
    match pyFloat? (pyStrip (pyRemove v '%')) with
    | none => 0
    | some f => if 5 < |f.toRat| then f.toRat / 100 else f.toRat

/-! ## The monetary shape of the specification

The specification describes parsable monetary strings by the shape
`[$][sign]digits[,digits]*[.digits]`. A `Money` value is one instance of
that shape; `Money.render` prints it and `Money.value` is its decimal
value. -/

structure Money where
  dollar : Bool
  sign : Option Bool
  g0 : List Char
  gs : List (List Char)
  frac : Option (List Char)
  g0_digits : ∀ c ∈ g0, c.isDigit = true
  g0_ne : g0 ≠ []
  gs_ok : ∀ g ∈ gs, (∀ c ∈ g, c.isDigit = true) ∧ g ≠ []
  frac_ok : ∀ f, frac = some f → (∀ c ∈ f, c.isDigit = true) ∧ f ≠ []

/-- Characters of the optional sign (`some true` is `-`, `some false` is
`+`). -/
def Money.signChars (m : Money) : List Char :=
  match m.sign with
  | none => []
  | some true => ['-']
  | some false => ['+']

/-- Characters of the integer part with its comma separators. -/
def Money.intChars (m : Money) : List Char :=
  m.g0 ++ (m.gs.map (fun g => ',' :: g)).flatten

/-- Digits of the fractional part, empty when absent. -/
def Money.fracDigits (m : Money) : List Char :=
  match m.frac with
  | none => []
  | some f => f

/-- Characters of the fractional part with its dot, empty when absent. -/
def Money.fracChars (m : Money) : List Char :=
  match m.frac with
  | none => []
  | some f => '.' :: f

/-- Character list of the rendered monetary string. -/
def Money.renderL (m : Money) : List Char :=
  (if m.dollar then ['$'] else []) ++ m.signChars ++ m.intChars ++ m.fracChars

/-- The rendered monetary string of the shape
`[$][sign]digits[,digits]*[.digits]`. -/
def Money.render (m : Money) : String :=
  ⟨m.renderL⟩

/-- Sign bit of the value. -/
def Money.negB (m : Money) : Bool :=
  match m.sign with
  | some true => true
  | _ => false

/-- Decimal value of the shape: all digits with the commas removed, scaled
down by the number of fractional digits, negated under a minus sign. -/
def Money.value (m : Money) : ℚ :=
  PyFloat.toRat ⟨m.negB, digitsVal ((m.g0 ++ m.gs.flatten) ++ m.fracDigits), m.fracDigits.length⟩

/-- Characters that can appear in a rendered monetary string. -/
def moneyChar (c : Char) : Prop :=
  c.isDigit = true ∨ c = '$' ∨ c = '+' ∨ c = '-' ∨ c = ',' ∨ c = '.'

/-! ## The dual-table row filters against their specification sentences -/

/-- Row-keeping rule of the sales block as the specification words it: the
first cell must be present, not blank after trimming, and not the literal
token `total` case-insensitively. -/
def specLeftKeep (c : Option String) : Bool :=
  match c with
  | none => false
  | some s => !(pyStrip s == "") && !(pyLower (pyStrip s) == "total")

/-- Row-keeping rule of the expenses block as the specification words it:
the first cell must be present and not blank after trimming. -/
def specRightKeep (c : Option String) : Bool :=
  match c with
  | none => false
  | some s => !(pyStrip s == "")

/-! ## Concrete grids used by the claims -/

/-- The end-to-end scenario grid of the specification. -/
def c1grid : List (List String) :=
  [["", "", ""], ["Producto", "Categoría", "Categoría"], ["Widget", "A", "B"],
   ["Total", "", ""], ["", "", ""]]

/-- Grid whose header row contains a name colliding with a generated
suffix. -/
def c5grid : List (List String) :=
  [["Producto", "A", "A", "A_1"], ["w", "x", "y", "z"]]

/-- Dual-table grid whose sales block contains a blank header cell. -/
def c4grid : List (List String) :=
  [["x0", "Producto", "", "C3", "C4", "C5", "C6", "C7", "C8", "", "", "", "",
    "Gasto", "D14", "D15", "D16", "D17", "D18", "D19", "D20"],
   ["r0", "Widget", "a", "b", "c", "d", "e", "f", "g", "", "", "", "",
    "Luz", "1", "2", "3", "4", "5", "6", "7"]]

/-- Grid in which every data row is shorter than the header row. -/
def c9gridBad : List (List String) :=
  [["Producto", "A", "B"], ["x", "y"]]

/-- Grid with one full-width data row and one short data row. -/
def c9gridOk : List (List String) :=
  [["Producto", "A", "B"], ["x", "y", "z"], ["w", "v"]]

/-- Dual-table grid with a single short data row. -/
def c9gridVend : List (List String) :=
  [["h0", "Producto", "C2", "C3", "C4", "C5", "C6", "C7", "C8", "", "", "", "",
    "Gasto", "D14", "D15", "D16", "D17", "D18", "D19", "D20"],
   ["r0", "Prod1", "x"]]

/-- Grid whose header names differ only in surrounding whitespace. -/
def c10grid : List (List String) :=
  [["Producto", "Name", "Name "], ["w", "x", "y"]]

/-- Header row of the dual-table independence scenario. -/
def c7headers : List String :=
  ["h0", "Producto", "C2", "C3", "C4", "C5", "C6", "C7", "C8", "", "", "", "",
   "Descripción", "D14", "D15", "D16", "D17", "D18", "D19", "D20"]

/-- Data rows of the dual-table independence scenario: the first row is a
subtotal row on the left with a real expense on the right. -/
def c7data : List (List String) :=
  [["r0", "Total", "a", "b", "c", "d", "e", "f", "g", "", "", "", "",
    "GastoA", "1", "2", "3", "4", "5", "6", "7"],
   ["r1", "Zapato", "a", "b", "c", "d", "e", "f", "g", "", "", "", "",
    "", "1", "2", "3", "4", "5", "6", "7"]]

/-- Dual-table grid whose sales window has a blank first header name (the
Python guard `if fc:` is then falsy) while the expenses window is normal;
its only data row is a left subtotal row. -/
def c7blankGrid : List (List String) :=
  [["Producto", "", "C2", "C3", "C4", "C5", "C6", "C7", "C8", "", "", "", "",
    "Gasto", "D14", "D15", "D16", "D17", "D18", "D19", "D20"],
   ["r0", "Total", "a", "b", "c", "d", "e", "f", "g", "", "", "", "",
    "GastoA", "1", "2", "3", "4", "5", "6", "7"]]

/-- A concrete monetary shape rendering to `$1,234.56`. -/
def moneyExample : Money :=
  ⟨true, none, ['1'], [['2', '3', '4']], some ['5', '6'],
    by decide, by decide, by decide, by decide⟩

/-! ## Basic lemmas about the string primitives -/

theorem dropWhile_append_all {p : Char → Bool} {a : List Char}
    (h : ∀ c ∈ a, p c = true) (x : List Char) :
    (a ++ x).dropWhile p = x.dropWhile p := by
  induction a with
  | nil => rfl
  | cons c rest ih =>
    have hc : p c = true := h c (List.mem_cons_self c rest)
    simp only [List.cons_append, List.dropWhile_cons, hc, if_true]
    exact ih (fun d hd => h d (List.mem_cons_of_mem c hd))

theorem dropWhile_append_of_ne_nil {p : Char → Bool} {x : List Char}
    (h : x.dropWhile p ≠ []) (b : List Char) :
    (x ++ b).dropWhile p = x.dropWhile p ++ b := by
  induction x with
  | nil => simp at h
  | cons c rest ih =>
    by_cases hc : p c = true
    · simp only [List.dropWhile_cons, hc, if_true] at h ⊢
      simp only [List.cons_append, List.dropWhile_cons, hc, if_true]
      exact ih h
    · have hc' : p c = false := by simpa using hc
      simp only [List.cons_append, List.dropWhile_cons, hc', Bool.false_eq_true, if_false]

theorem takeWhile_append_all {p : Char → Bool} {a : List Char}
    (h : ∀ c ∈ a, p c = true) (x : List Char) :
    (a ++ x).takeWhile p = a ++ x.takeWhile p := by
  induction a with
  | nil => rfl
  | cons c rest ih =>
    have hc : p c = true := h c (List.mem_cons_self c rest)
    simp only [List.cons_append, List.takeWhile_cons, hc, if_true]
    rw [ih (fun d hd => h d (List.mem_cons_of_mem c hd))]

theorem mem_of_mem_takeWhile {p : Char → Bool} {l : List Char} {c : Char}
    (h : c ∈ l.takeWhile p) : p c = true := by
  induction l with
  | nil => simp [List.takeWhile] at h
  | cons a rest ih =>
    rw [List.takeWhile_cons] at h
    by_cases ha : p a = true
    · rw [if_pos ha] at h
      rcases List.mem_cons.mp h with h1 | h2
      · exact h1 ▸ ha
      · exact ih h2
    · rw [if_neg ha] at h
      simp at h

theorem mem_of_mem_dropWhile {p : Char → Bool} {l : List Char} {c : Char}
    (h : c ∈ l.dropWhile p) : c ∈ l := by
  induction l with
  | nil => simp [List.dropWhile] at h
  | cons a t ih =>
    rw [List.dropWhile_cons] at h
    by_cases ha : p a = true
    · rw [if_pos ha] at h
      exact List.mem_cons_of_mem a (ih h)
    · rw [if_neg ha] at h
      exact h

/-- A stripped list is empty exactly when every character is whitespace. -/
theorem pyStripL_eq_nil_iff (l : List Char) :
    pyStripL l = [] ↔ ∀ c ∈ l, c.isWhitespace = true := by
  unfold pyStripL
  rw [List.reverse_eq_nil_iff, List.dropWhile_eq_nil_iff]
  constructor
  · intro h c hc
    by_cases hmem : c ∈ l.dropWhile Char.isWhitespace
    · exact h c (List.mem_reverse.mpr hmem)
    · have hsplit := List.takeWhile_append_dropWhile Char.isWhitespace l
      rw [← hsplit] at hc
      rcases List.mem_append.mp hc with h1 | h2
      · exact mem_of_mem_takeWhile h1
      · exact absurd h2 hmem
  · intro h c hc
    exact h c (mem_of_mem_dropWhile (List.mem_reverse.mp hc))

theorem head_dropWhile_false {p : Char → Bool} {l : List Char} {c : Char}
    {rest : List Char} (h : l.dropWhile p = c :: rest) : p c = false := by
  induction l with
  | nil => simp [List.dropWhile] at h
  | cons a t ih =>
    rw [List.dropWhile_cons] at h
    by_cases ha : p a = true
    · rw [if_pos ha] at h
      exact ih h
    · rw [if_neg ha] at h
      cases h
      simpa using ha

/-- Stripping is the identity on a list whose two end characters are not
whitespace. -/
theorem pyStripL_eq_self {l : List Char}
    (h1 : ∀ c, l.head? = some c → c.isWhitespace = false)
    (h2 : ∀ c, l.getLast? = some c → c.isWhitespace = false) :
    pyStripL l = l := by
  unfold pyStripL
  have hd : l.dropWhile Char.isWhitespace = l := by
    cases l with
    | nil => rfl
    | cons a t =>
      rw [List.dropWhile_cons, if_neg]
      rw [h1 a rfl]
      simp
  rw [hd]
  have hr : l.reverse.dropWhile Char.isWhitespace = l.reverse := by
    cases hrev : l.reverse with
    | nil => rfl
    | cons a t =>
      rw [List.dropWhile_cons, if_neg]
      have : l.getLast? = some a := by
        rw [← List.head?_reverse, hrev]
        rfl
      rw [h2 a this]
      simp
  rw [hr, List.reverse_reverse]

theorem getLast?_dropWhile {p : Char → Bool} {m : List Char}
    (h : m.dropWhile p ≠ []) : (m.dropWhile p).getLast? = m.getLast? := by
  induction m with
  | nil => simp [List.dropWhile] at h
  | cons a t ih =>
    rw [List.dropWhile_cons]
    by_cases ha : p a = true
    · rw [if_pos ha]
      rw [List.dropWhile_cons, if_pos ha] at h
      rw [ih h]
      cases ht : t with
      | nil =>
        rw [ht] at h
        simp [List.dropWhile] at h
      | cons b u => simp
    · rw [if_neg ha]

/-- The first and last characters of a stripped list are never whitespace. -/
theorem pyStripL_ends (l : List Char) :
    (∀ c, (pyStripL l).head? = some c → c.isWhitespace = false) ∧
    (∀ c, (pyStripL l).getLast? = some c → c.isWhitespace = false) := by
  unfold pyStripL
  constructor
  · intro c hc
    rw [List.head?_reverse] at hc
    rcases hk : (l.dropWhile Char.isWhitespace).reverse.dropWhile Char.isWhitespace with
      _ | ⟨b, u⟩
    · rw [hk] at hc
      simp at hc
    · have hne : (l.dropWhile Char.isWhitespace).reverse.dropWhile Char.isWhitespace ≠ [] := by
        rw [hk]
        simp
      rw [getLast?_dropWhile hne, List.getLast?_reverse] at hc
      rcases hdl : l.dropWhile Char.isWhitespace with _ | ⟨d, v⟩
      · rw [hdl] at hc
        simp at hc
      · rw [hdl] at hc
        cases hc
        exact head_dropWhile_false hdl
  · intro c hc
    rw [List.getLast?_reverse] at hc
    rcases hk : (l.dropWhile Char.isWhitespace).reverse.dropWhile Char.isWhitespace with
      _ | ⟨b, u⟩
    · rw [hk] at hc
      simp at hc
    · rw [hk] at hc
      cases hc
      exact head_dropWhile_false hk

/-- Stripping an already stripped list changes nothing. -/
theorem pyStripL_idem (l : List Char) : pyStripL (pyStripL l) = pyStripL l :=
  pyStripL_eq_self (pyStripL_ends l).1 (pyStripL_ends l).2

/-- A list containing a non-whitespace character does not strip to nil. -/
theorem pyStripL_ne_nil {l : List Char} {c : Char} (hc : c ∈ l)
    (hw : c.isWhitespace = false) : pyStripL l ≠ [] := by
  intro h
  rw [pyStripL_eq_nil_iff] at h
  rw [h c hc] at hw
  cases hw

theorem pyStripL_append_ws_left {a : List Char}
    (ha : ∀ c ∈ a, c.isWhitespace = true) (x : List Char) :
    pyStripL (a ++ x) = pyStripL x := by
  unfold pyStripL
  rw [dropWhile_append_all ha]

theorem pyStripL_append_ws_right {b : List Char}
    (hb : ∀ c ∈ b, c.isWhitespace = true) (x : List Char) :
    pyStripL (x ++ b) = pyStripL x := by
  rcases hx : x.dropWhile Char.isWhitespace with _ | ⟨d, v⟩
  · have hxall : ∀ c ∈ x, c.isWhitespace = true := List.dropWhile_eq_nil_iff.mp hx
    have h1 : pyStripL (x ++ b) = [] := by
      rw [pyStripL_eq_nil_iff]
      intro c hc
      rcases List.mem_append.mp hc with h | h
      · exact hxall c h
      · exact hb c h
    have h2 : pyStripL x = [] := by
      rw [pyStripL_eq_nil_iff]
      exact hxall
    rw [h1, h2]
  · have hne : x.dropWhile Char.isWhitespace ≠ [] := by
      rw [hx]
      simp
    unfold pyStripL
    rw [dropWhile_append_of_ne_nil hne b, List.reverse_append,
      dropWhile_append_all (fun c hc => hb c (List.mem_reverse.mp hc))]

/-- Every list splits as leading whitespace, its stripped core, and trailing
whitespace. -/
theorem pyStripL_split (l : List Char) :
    ∃ a b, l = a ++ pyStripL l ++ b ∧ (∀ c ∈ a, c.isWhitespace = true) ∧
      ∀ c ∈ b, c.isWhitespace = true := by
  refine ⟨l.takeWhile Char.isWhitespace,
    ((l.dropWhile Char.isWhitespace).reverse.takeWhile Char.isWhitespace).reverse, ?_, ?_, ?_⟩
  · unfold pyStripL
    rw [List.append_assoc, ← List.reverse_append, List.takeWhile_append_dropWhile,
      List.reverse_reverse, List.takeWhile_append_dropWhile]
  · intro c hc
    exact mem_of_mem_takeWhile hc
  · intro c hc
    exact mem_of_mem_takeWhile (List.mem_reverse.mp hc)

/-- Filtering by a predicate that keeps all whitespace commutes with an inner
strip: stripping first, then filtering, then stripping again is the same as
filtering and stripping once. -/
theorem pyStripL_filter_strip {p : Char → Bool}
    (hp : ∀ c, c.isWhitespace = true → p c = true) (l : List Char) :
    pyStripL ((pyStripL l).filter p) = pyStripL (l.filter p) := by
  obtain ⟨a, b, hsplit, ha, hb⟩ := pyStripL_split l
  conv_rhs => rw [hsplit]
  rw [List.filter_append, List.filter_append]
  have hfa : a.filter p = a := List.filter_eq_self.mpr (fun c hc => hp c (ha c hc))
  have hfb : b.filter p = b := List.filter_eq_self.mpr (fun c hc => hp c (hb c hc))
  rw [hfa, hfb, pyStripL_append_ws_right hb, pyStripL_append_ws_left ha]

/-! ## Lemmas about decimal rendering -/

theorem natDigitsAux_spec (fuel : Nat) :
    ∀ n, n ≤ fuel → natDigitsAux fuel n ≠ [] ∧
      ∀ c ∈ natDigitsAux fuel n, ∃ d, d < 10 ∧ c = digitChar d := by
  induction fuel with
  | zero =>
    intro n hn
    have : n = 0 := Nat.le_zero.mp hn
    subst this
    refine ⟨by simp [natDigitsAux], ?_⟩
    intro c hc
    simp only [natDigitsAux, List.mem_singleton] at hc
    exact ⟨0, by omega, hc⟩
  | succ fuel ih =>
    intro n hn
    by_cases h10 : n < 10
    · refine ⟨by simp [natDigitsAux, h10], ?_⟩
      intro c hc
      simp only [natDigitsAux, h10, if_true, List.mem_singleton] at hc
      exact ⟨n, h10, hc⟩
    · have hrec : n / 10 ≤ fuel := by
        have : n / 10 < n := Nat.div_lt_self (by omega) (by omega)
        omega
      obtain ⟨hne, hmem⟩ := ih (n / 10) hrec
      constructor
      · simp [natDigitsAux, h10]
      · intro c hc
        simp only [natDigitsAux, h10, if_false, List.mem_append, List.mem_singleton] at hc
        rcases hc with hc | hc
        · exact hmem c hc
        · exact ⟨n % 10, Nat.mod_lt n (by omega), hc⟩

theorem natDigitsL_ne_nil (n : Nat) : natDigitsL n ≠ [] :=
  (natDigitsAux_spec n n (Nat.le_refl n)).1

theorem natDigitsL_mem (n : Nat) {c : Char} (hc : c ∈ natDigitsL n) :
    ∃ d, d < 10 ∧ c = digitChar d :=
  (natDigitsAux_spec n n (Nat.le_refl n)).2 c hc

theorem digitChar_not_ws {d : Nat} (hd : d < 10) :
    (digitChar d).isWhitespace = false := by
  interval_cases d <;> decide

theorem natDigitsL_not_ws (n : Nat) {c : Char} (hc : c ∈ natDigitsL n) :
    c.isWhitespace = false := by
  obtain ⟨d, hd, rfl⟩ := natDigitsL_mem n hc
  exact digitChar_not_ws hd

theorem dedupGo_cons (seen : String → Option Nat) (c : String) (cs : List String) :
    dedupGo seen (c :: cs) =
      (if occOf (seen c) = 0 then c else c ++ "_" ++ natToStr (occOf (seen c))) ::
        dedupGo (fun x => if x = c then some (occOf (seen c)) else seen x) cs := by
  cases hc : seen c with
  | none => simp [dedupGo, hc, occOf]
  | some n => simp [dedupGo, hc, occOf]

theorem dedupGo_length (seen : String → Option Nat) (l : List String) :
    (dedupGo seen l).length = l.length := by
  induction l generalizing seen with
  | nil => rfl
  | cons c cs ih =>
    rw [dedupGo_cons]
    simp [ih]

/-- Every name produced by the renaming loop is an input name, possibly
with a `_k` suffix appended. -/
theorem dedupGo_mem_src {seen : String → Option Nat} {l : List String} {out : String}
    (h : out ∈ dedupGo seen l) :
    ∃ c ∈ l, out = c ∨ ∃ k, out = c ++ "_" ++ natToStr k := by
  induction l generalizing seen with
  | nil => simp [dedupGo] at h
  | cons c cs ih =>
    rw [dedupGo_cons] at h
    rcases List.mem_cons.mp h with h1 | h2
    · refine ⟨c, List.mem_cons_self c cs, ?_⟩
      by_cases h0 : occOf (seen c) = 0
      · rw [if_pos h0] at h1
        exact Or.inl h1
      · rw [if_neg h0] at h1
        exact Or.inr ⟨occOf (seen c), h1⟩
    · obtain ⟨d, hd, hout⟩ := ih h2
      exact ⟨d, List.mem_cons_of_mem c hd, hout⟩

/-- Full characterization of the renaming loop: the output at position `j`
is the input name there, suffixed with the number of equal names occurring
earlier (counting the occurrences already recorded in the dict). -/
theorem dedupGo_getD (l : List String) (seen : String → Option Nat) (j : Nat)
    (h : j < l.length) :
    (dedupGo seen l).getD j "" =
      (if occOf (seen (l.getD j "")) +
          (l.take j).countP (fun x => x = l.getD j "") = 0 then l.getD j ""
       else l.getD j "" ++ "_" ++
         natToStr (occOf (seen (l.getD j "")) +
           (l.take j).countP (fun x => x = l.getD j ""))) := by
  induction l generalizing seen j with
  | nil => simp at h
  | cons c cs ih =>
    rw [dedupGo_cons]
    cases j with
    | zero =>
      rw [List.getD_cons_zero, List.getD_cons_zero]
      simp only [List.take_zero, List.countP_nil, Nat.add_zero]
    | succ j =>
      have hj : j < cs.length := by simpa using h
      rw [List.getD_cons_succ, List.getD_cons_succ,
        ih (fun x => if x = c then some (occOf (seen c)) else seen x) j hj]
      have hAB : occOf (if cs.getD j "" = c then some (occOf (seen c))
            else seen (cs.getD j "")) + (cs.take j).countP (fun x => x = cs.getD j "") =
          occOf (seen (cs.getD j "")) +
            ((c :: cs).take (j + 1)).countP (fun x => x = cs.getD j "") := by
        rw [List.take_succ_cons, List.countP_cons]
        by_cases hec : cs.getD j "" = c
        · rw [if_pos hec, hec]
          have hcc : (decide (c = c)) = true := by simp
          rw [hcc]
          simp only [occOf]
          cases hsc : seen c <;> simp [occOf] <;> omega
        · rw [if_neg hec]
          have hcc : (decide (c = cs.getD j "")) = false :=
            decide_eq_false (fun hcc => hec hcc.symm)
          rw [hcc]
          simp
      rw [hAB]

/-! ## String-level facts about stripping and the suffixed names -/

theorem string_data_append (a b : String) : (a ++ b).data = a.data ++ b.data :=
  rfl

theorem string_mk_eq_empty_iff (l : List Char) : (⟨l⟩ : String) = "" ↔ l = [] := by
  constructor
  · intro h
    exact congrArg String.data h
  · intro h
    exact congrArg String.mk h

theorem pyStrip_idem (s : String) : pyStrip (pyStrip s) = pyStrip s :=
  congrArg String.mk (pyStripL_idem s.data)

theorem pyStrip_eq_empty_iff (s : String) : pyStrip s = "" ↔ pyStripL s.data = [] :=
  string_mk_eq_empty_iff (pyStripL s.data)

theorem pyStrip_strip_ne_empty {s : String} (h : pyStrip s ≠ "") :
    pyStrip (pyStrip s) ≠ "" := by
  rw [pyStrip_idem]
  exact h

theorem data_of_pyStrip_eq_self {s : String} (hs : pyStrip s = s) :
    pyStripL s.data = s.data :=
  congrArg String.data hs

theorem mem_of_getLast?_eq {l : List Char} {c : Char} (h : l.getLast? = some c) :
    c ∈ l := by
  induction l with
  | nil => simp at h
  | cons a t ih =>
    cases t with
    | nil =>
      simp only [List.getLast?_singleton, Option.some.injEq] at h
      rw [h]
      exact List.mem_singleton.mpr rfl
    | cons b u =>
      rw [List.getLast?_cons_cons] at h
      exact List.mem_cons_of_mem a (ih h)

/-- Appending a `_k` suffix to a string that stripping leaves unchanged
again yields a string that stripping leaves unchanged. -/
theorem pyStrip_suffix_eq_self {s : String} (hs : pyStrip s = s) (k : Nat) :
    pyStrip (s ++ "_" ++ natToStr k) = s ++ "_" ++ natToStr k := by
  have hdata : (s ++ "_" ++ natToStr k).data = (s.data ++ ['_']) ++ natDigitsL k := by
    rw [string_data_append, string_data_append]
    rfl
  apply String.ext
  show pyStripL (s ++ "_" ++ natToStr k).data = (s ++ "_" ++ natToStr k).data
  rw [hdata]
  apply pyStripL_eq_self
  · intro c hc
    cases hsd : s.data with
    | nil =>
      rw [hsd] at hc
      simp only [List.nil_append, List.cons_append, List.head?_cons] at hc
      cases hc
      decide
    | cons d v =>
      rw [hsd] at hc
      have hdc : d = c := Option.some.inj hc
      have hself := data_of_pyStrip_eq_self hs
      rw [hsd] at hself
      rw [← hdc]
      exact (pyStripL_ends (d :: v)).1 d (by rw [hself]; rfl)
  · intro c hc
    rw [List.getLast?_append_of_ne_nil _ (natDigitsL_ne_nil k)] at hc
    have hmem : c ∈ natDigitsL k := mem_of_getLast?_eq hc
    exact natDigitsL_not_ws k hmem

/-- A suffixed name never strips to the empty string (it contains `_`). -/
theorem pyStrip_suffix_ne_empty (s : String) (k : Nat) :
    pyStrip (s ++ "_" ++ natToStr k) ≠ "" := by
  intro h
  rw [pyStrip_eq_empty_iff] at h
  have hmem : '_' ∈ (s ++ "_" ++ natToStr k).data := by
    have hd : (s ++ "_" ++ natToStr k).data = (s.data ++ ['_']) ++ natDigitsL k := by
      rw [string_data_append, string_data_append]
      rfl
    rw [hd]
    exact List.mem_append_left _ (List.mem_append_right _ (List.mem_singleton.mpr rfl))
  exact pyStripL_ne_nil hmem (by decide) h

/-! ## Invariants of the names a loader produces -/

theorem headerNames_spec {headers : List String} {nm : String}
    (h : nm ∈ headerNames headers) : pyStrip nm = nm ∧ pyStrip nm ≠ "" := by
  unfold headerNames at h
  obtain ⟨i, hi, rfl⟩ := List.mem_map.mp h
  unfold keptIdxs at hi
  have hne := (List.mem_filter.mp hi).2
  constructor
  · exact pyStrip_idem _
  · rw [pyStrip_idem]
    exact of_decide_eq_true hne

theorem blockHeaders_spec {headers : List String} {idxs : List Nat} {nm : String}
    (h : nm ∈ blockHeaders headers idxs) : pyStrip nm = nm := by
  unfold blockHeaders at h
  obtain ⟨i, _, rfl⟩ := List.mem_map.mp h
  exact pyStrip_idem _

/-- Any column name produced by de-duplicating a list of names that strip
to themselves also strips to itself. -/
theorem dedupNames_strip_self {names : List String}
    (hn : ∀ nm ∈ names, pyStrip nm = nm) {out : String}
    (h : out ∈ dedupNames names) : pyStrip out = out := by
  obtain ⟨c, hc, hout⟩ := dedupGo_mem_src h
  rcases hout with rfl | ⟨k, rfl⟩
  · exact hn _ hc
  · exact pyStrip_suffix_eq_self (hn _ hc) k

/-- Any column name produced by de-duplicating a list of nonblank names
that strip to themselves is nonblank. -/
theorem dedupNames_ne_empty {names : List String}
    (hn : ∀ nm ∈ names, pyStrip nm = nm ∧ pyStrip nm ≠ "") {out : String}
    (h : out ∈ dedupNames names) : pyStrip out ≠ "" := by
  obtain ⟨c, hc, hout⟩ := dedupGo_mem_src h
  rcases hout with rfl | ⟨k, rfl⟩
  · exact (hn _ hc).2
  · exact pyStrip_suffix_ne_empty _ k

/-! ## Branch analysis of the loaders -/

theorem findHeaderRow_cons_of_marker {marker : String} {headers : List String}
    (data : List (List String)) (hm : rowHasMarker marker headers = true) :
    findHeaderRow (headers :: data) marker = 0 := by
  simp [findHeaderRow, findHeaderRowAux, hm]

theorem sheetHeaders_cons {marker : String} {headers : List String}
    {data : List (List String)} (hm : rowHasMarker marker headers = true) :
    sheetHeaders (headers :: data) marker = headers := by
  unfold sheetHeaders
  rw [findHeaderRow_cons_of_marker data hm]
  rfl

theorem sheetData_cons {marker : String} {headers : List String}
    {data : List (List String)} (hm : rowHasMarker marker headers = true) :
    sheetData (headers :: data) marker = data := by
  unfold sheetData
  rw [findHeaderRow_cons_of_marker data hm]
  rfl

/-- On the normal path — marker found in the first row, nonempty data whose
widest row matches the header width — `load_sheet` builds the table without
failing. -/
theorem loadSheetCore_normal {marker : String} {headers : List String}
    {data : List (List String)} (hm : rowHasMarker marker headers = true)
    (hd : data ≠ []) (hw : maxRowLen data = headers.length) :
    loadSheetCore (headers :: data) marker = some
      { cols := dedupNames (headerNames headers)
        rows := (data.map (projRow headers)).filter (fun r => r.any Option.isSome) } := by
  unfold loadSheetCore
  rw [if_neg (by simp), sheetData_cons hm, sheetHeaders_cons hm,
    if_neg (by simpa using hd), if_neg (by simp [hw])]

/-- Case analysis of `load_sheet`: any table it produces is either one of
the empty-table early returns or the fully normalized table. -/
theorem loadSheetCore_cases {grid : List (List String)} {marker : String} {t : Table}
    (h : loadSheetCore grid marker = some t) :
    t = Table.empty ∨ t.cols = dedupNames (headerNames (sheetHeaders grid marker)) := by
  unfold loadSheetCore at h
  by_cases h1 : grid.isEmpty
  · rw [if_pos h1] at h
    exact Or.inl (Option.some.inj h).symm
  · rw [if_neg h1] at h
    by_cases h2 : (sheetData grid marker).isEmpty
    · rw [if_pos h2] at h
      exact Or.inl (Option.some.inj h).symm
    · rw [if_neg h2] at h
      by_cases h3 : maxRowLen (sheetData grid marker) ≠ (sheetHeaders grid marker).length
      · rw [if_pos h3] at h
        cases h
      · rw [if_neg h3] at h
        exact Or.inr (by rw [← Option.some.inj h])

theorem vendHeaders_cons {headers : List String} {data : List (List String)}
    (hm : rowHasMarker "Producto" headers = true) :
    vendHeaders (headers :: data) = headers := by
  unfold vendHeaders
  rw [findHeaderRow_cons_of_marker data hm]
  rfl

theorem vendData_cons {headers : List String} {data : List (List String)}
    (hm : rowHasMarker "Producto" headers = true) :
    vendData (headers :: data) = data := by
  unfold vendData
  rw [findHeaderRow_cons_of_marker data hm]
  rfl

/-- On the normal path — marker found in the first row, nonempty data, both
column windows fully present, no duplicated first label in either block —
`load_vendidos_tables` builds the two tables without failing, each block
filtered by its own row predicate. -/
theorem loadVendidosCore_normal {headers : List String} {data : List (List String)}
    (hm : rowHasMarker "Producto" headers = true) (hd : data ≠ [])
    (h8 : (blockHeaders headers vIdxs).length = 8 ∧ (blockHeaders headers gIdxs).length = 8)
    (h0 : (blockHeaders headers vIdxs).getD 0 "" ≠ "" ∧
      (blockHeaders headers gIdxs).getD 0 "" ≠ "")
    (hu : (blockHeaders headers vIdxs).countP
        (fun x => x = (blockHeaders headers vIdxs).getD 0 "") = 1 ∧
      (blockHeaders headers gIdxs).countP
        (fun x => x = (blockHeaders headers gIdxs).getD 0 "") = 1) :
    loadVendidosCore (headers :: data) = some
      (⟨dedupNames (blockHeaders headers vIdxs),
        (data.map (fun r => blockRow r vIdxs)).filter
          (fun r => vKeepCell (r.getD 0 none))⟩,
       ⟨dedupNames (blockHeaders headers gIdxs),
        (data.map (fun r => blockRow r gIdxs)).filter
          (fun r => gKeepCell (r.getD 0 none))⟩) := by
  have hv : vNames (headers :: data) = blockHeaders headers vIdxs := by
    unfold vNames
    rw [vendHeaders_cons hm]
  have hg : gNames (headers :: data) = blockHeaders headers gIdxs := by
    unfold gNames
    rw [vendHeaders_cons hm]
  unfold loadVendidosCore
  rw [if_neg (by simp), vendData_cons hm, hv, hg,
    if_neg (by simpa using hd),
    if_neg (by simp only [ne_eq, not_or, not_not]; exact h8),
    if_neg (by
      rintro (⟨_, hbad⟩ | ⟨_, hbad⟩)
      · exact hbad hu.1
      · exact hbad hu.2),
    if_pos h0.1, if_pos h0.2]

/-- Case analysis of `load_vendidos_tables`: any pair it produces is either
the pair of empty early returns or the pair of fully normalized tables. -/
theorem loadVendidosCore_cases {grid : List (List String)} {p : Table × Table}
    (h : loadVendidosCore grid = some p) :
    p = (Table.empty, Table.empty) ∨
      (p.1.cols = dedupNames (vNames grid) ∧ p.2.cols = dedupNames (gNames grid)) := by
  unfold loadVendidosCore at h
  by_cases h1 : grid.isEmpty
  · rw [if_pos h1] at h
    exact Or.inl (Option.some.inj h).symm
  · rw [if_neg h1] at h
    by_cases h2 : (vendData grid).isEmpty
    · rw [if_pos h2] at h
      exact Or.inl (Option.some.inj h).symm
    · rw [if_neg h2] at h
      by_cases h3 : (vNames grid).length ≠ 8 ∨ (gNames grid).length ≠ 8
      · rw [if_pos h3] at h
        cases h
      · rw [if_neg h3] at h
        by_cases h4 : ((vNames grid).getD 0 "" ≠ "" ∧
              (vNames grid).countP (fun x => x = (vNames grid).getD 0 "") ≠ 1) ∨
            ((gNames grid).getD 0 "" ≠ "" ∧
              (gNames grid).countP (fun x => x = (gNames grid).getD 0 "") ≠ 1)
        · rw [if_pos h4] at h
          cases h
        · rw [if_neg h4] at h
          rw [← Option.some.inj h]
          exact Or.inr ⟨rfl, rfl⟩

/-! ## Character-class facts -/

theorem ws_char_cases {c : Char} (h : c.isWhitespace = true) :
    c = ' ' ∨ c = '\t' ∨ c = '\r' ∨ c = '\n' := by
  simp only [Char.isWhitespace, Bool.or_eq_true, decide_eq_true_eq] at h
  tauto

theorem digit_not_ws {c : Char} (h : c.isDigit = true) : c.isWhitespace = false := by
  by_contra hw
  have hw' : c.isWhitespace = true := by
    cases hws : c.isWhitespace
    · exact absurd hws hw
    · rfl
  rcases ws_char_cases hw' with rfl | rfl | rfl | rfl <;> exact absurd h (by decide)

theorem ne_of_digit {c d : Char} (h : c.isDigit = true) (hd : d.isDigit = false) :
    c ≠ d := by
  intro heq
  subst heq
  rw [h] at hd
  cases hd

theorem pyFloat?_congr {s t : String} (h : pyStripL s.data = pyStripL t.data) :
    pyFloat? s = pyFloat? t := by
  unfold pyFloat?
  rw [h]

/-- Stripping before or after removing the percent signs parses alike. -/
theorem pyFloat?_strip_remove (s : String) :
    pyFloat? (pyRemove (pyStrip s) '%') = pyFloat? (pyStrip (pyRemove s '%')) := by
  apply pyFloat?_congr
  show pyStripL ((pyStripL s.data).filter (fun d => d ≠ '%')) =
    pyStripL (pyStripL (s.data.filter (fun d => d ≠ '%')))
  rw [pyStripL_idem]
  apply pyStripL_filter_strip
  intro c hc
  rcases ws_char_cases hc with rfl | rfl | rfl | rfl <;> decide

theorem clean_pct_eq_spec (val : Option String) : clean_pct val = parsePercentSpec val := by
  cases val with
  | none => rfl
  | some v =>
    show (match pyFloat? (pyRemove (pyStrip v) '%') with
      | none => (0 : ℚ)
      | some f => if 5 < |f.toRat| then f.toRat / 100 else f.toRat) =
      (match pyFloat? (pyStrip (pyRemove v '%')) with
      | none => (0 : ℚ)
      | some f => if 5 < |f.toRat| then f.toRat / 100 else f.toRat)
    rw [pyFloat?_strip_remove v]

theorem money_renderL_chars (m : Money) : ∀ c ∈ m.renderL, moneyChar c := by
  intro c hc
  unfold Money.renderL at hc
  rcases List.mem_append.mp hc with hc | hc
  rotate_left
  · unfold Money.fracChars at hc
    cases hf : m.frac with
    | none =>
      rw [hf] at hc
      simp at hc
    | some f =>
      rw [hf] at hc
      rcases List.mem_cons.mp hc with rfl | hc
      · exact Or.inr (Or.inr (Or.inr (Or.inr (Or.inr rfl))))
      · exact Or.inl ((m.frac_ok f hf).1 c hc)
  rcases List.mem_append.mp hc with hc | hc
  rotate_left
  · unfold Money.intChars at hc
    rcases List.mem_append.mp hc with hc | hc
    · exact Or.inl (m.g0_digits c hc)
    · obtain ⟨l, hl, hcl⟩ := List.mem_flatten.mp hc
      obtain ⟨g, hg, rfl⟩ := List.mem_map.mp hl
      rcases List.mem_cons.mp hcl with rfl | hc2
      · exact Or.inr (Or.inr (Or.inr (Or.inr (Or.inl rfl))))
      · exact Or.inl ((m.gs_ok g hg).1 c hc2)
  rcases List.mem_append.mp hc with hc | hc
  · by_cases hd : m.dollar
    · rw [if_pos hd] at hc
      rcases List.mem_singleton.mp hc with rfl
      exact Or.inr (Or.inl rfl)
    · rw [if_neg hd] at hc
      simp at hc
  · unfold Money.signChars at hc
    cases hs : m.sign with
    | none =>
      rw [hs] at hc
      simp at hc
    | some b =>
      cases b <;> rw [hs] at hc <;> rcases List.mem_singleton.mp hc with rfl
      · exact Or.inr (Or.inr (Or.inl rfl))
      · exact Or.inr (Or.inr (Or.inr (Or.inl rfl)))

theorem moneyChar_not_ws {c : Char} (h : moneyChar c) : c.isWhitespace = false := by
  rcases h with h | rfl | rfl | rfl | rfl | rfl
  · exact digit_not_ws h
  all_goals decide

/-- A rendered monetary string never contains the letter `e`, so exponent
notation is outside the shape. -/
theorem money_renderL_no_e (m : Money) : 'e' ∉ m.renderL := by
  intro hc
  rcases money_renderL_chars m 'e' hc with h | h | h | h | h | h
  · exact absurd h (by decide)
  all_goals cases h

theorem mem_of_head?_eq {l : List Char} {c : Char} (h : l.head? = some c) : c ∈ l := by
  cases l with
  | nil => simp at h
  | cons a t =>
    have hac : a = c := Option.some.inj h
    rw [← hac]
    exact List.mem_cons_self a t

theorem pyStripL_eq_self_of_all {l : List Char} (h : ∀ c ∈ l, c.isWhitespace = false) :
    pyStripL l = l :=
  pyStripL_eq_self (fun c hc => h c (mem_of_head?_eq hc))
    (fun c hc => h c (mem_of_getLast?_eq hc))

theorem takeWhile_eq_self_of_all {p : Char → Bool} {l : List Char}
    (h : ∀ c ∈ l, p c = true) : l.takeWhile p = l := by
  induction l with
  | nil => rfl
  | cons a t ih =>
    rw [List.takeWhile_cons, if_pos (h a (List.mem_cons_self a t))]
    rw [ih (fun c hc => h c (List.mem_cons_of_mem a hc))]

theorem money_intChars_chars (m : Money) :
    ∀ c ∈ m.intChars, c.isDigit = true ∨ c = ',' := by
  intro c hc
  unfold Money.intChars at hc
  rcases List.mem_append.mp hc with hc | hc
  · exact Or.inl (m.g0_digits c hc)
  · obtain ⟨l, hl, hcl⟩ := List.mem_flatten.mp hc
    obtain ⟨g, hg, rfl⟩ := List.mem_map.mp hl
    rcases List.mem_cons.mp hcl with rfl | hc2
    · exact Or.inr rfl
    · exact Or.inl ((m.gs_ok g hg).1 c hc2)

theorem money_fracChars_chars (m : Money) :
    ∀ c ∈ m.fracChars, c.isDigit = true ∨ c = '.' := by
  intro c hc
  unfold Money.fracChars at hc
  cases hf : m.frac with
  | none =>
    rw [hf] at hc
    simp at hc
  | some f =>
    rw [hf] at hc
    rcases List.mem_cons.mp hc with rfl | hc2
    · exact Or.inr rfl
    · exact Or.inl ((m.frac_ok f hf).1 c hc2)

theorem filter_comma_flatten {gs : List (List Char)}
    (h : ∀ g ∈ gs, ∀ c ∈ g, c.isDigit = true) :
    ((gs.map (fun g => ',' :: g)).flatten).filter (fun d => d ≠ ',') = gs.flatten := by
  induction gs with
  | nil => rfl
  | cons g rest ih =>
    rw [List.map_cons, List.flatten_cons, List.filter_append, List.flatten_cons]
    have hg : (',' :: g).filter (fun d => d ≠ ',') = g := by
      rw [List.filter_cons]
      have hcomma : (decide (',' ≠ ',')) = false := by decide
      rw [hcomma]
      simp only [Bool.false_eq_true, if_false]
      exact List.filter_eq_self.mpr fun c hc =>
        decide_eq_true (ne_of_digit (h g (List.mem_cons_self g rest) c hc) (by decide))
    rw [hg, ih (fun g' hg' => h g' (List.mem_cons_of_mem g hg'))]

/-- Cleaning a rendered monetary string — strip, delete dollars and spaces,
delete commas — leaves exactly the sign, the digits and the dot. -/
theorem money_clean_data (m : Money) :
    ((pyStrip m.render).data.filter (fun c => ¬(c = '$' ∨ c = ' '))).filter
        (fun d => d ≠ ',') =
      m.signChars ++ (m.g0 ++ m.gs.flatten) ++ m.fracChars := by
  have hstrip : (pyStrip m.render).data = m.renderL :=
    pyStripL_eq_self_of_all (fun c hc => moneyChar_not_ws (money_renderL_chars m c hc))
  rw [hstrip]
  unfold Money.renderL
  simp only [List.filter_append]
  have hdollar1 : (if m.dollar then ['$'] else []).filter (fun c => ¬(c = '$' ∨ c = ' ')) = [] := by
    by_cases hd : m.dollar
    · rw [if_pos hd]
      rfl
    · rw [if_neg hd]
      rfl
  have hsign1 : m.signChars.filter (fun c => ¬(c = '$' ∨ c = ' ')) = m.signChars := by
    unfold Money.signChars
    cases m.sign with
    | none => rfl
    | some b => cases b <;> rfl
  have hint1 : m.intChars.filter (fun c => ¬(c = '$' ∨ c = ' ')) = m.intChars := by
    refine List.filter_eq_self.mpr fun c hc => decide_eq_true ?_
    rcases money_intChars_chars m c hc with h | rfl
    · rintro (rfl | rfl) <;> exact absurd h (by decide)
    · rintro (h | h) <;> cases h
  have hfrac1 : m.fracChars.filter (fun c => ¬(c = '$' ∨ c = ' ')) = m.fracChars := by
    refine List.filter_eq_self.mpr fun c hc => decide_eq_true ?_
    rcases money_fracChars_chars m c hc with h | rfl
    · rintro (rfl | rfl) <;> exact absurd h (by decide)
    · rintro (h | h) <;> cases h
  rw [hdollar1, hsign1, hint1, hfrac1, List.filter_nil, List.nil_append]
  have hsign2 : m.signChars.filter (fun d => d ≠ ',') = m.signChars := by
    unfold Money.signChars
    cases m.sign with
    | none => rfl
    | some b => cases b <;> rfl
  have hint2 : m.intChars.filter (fun d => d ≠ ',') = m.g0 ++ m.gs.flatten := by
    unfold Money.intChars
    rw [List.filter_append]
    have hg0 : m.g0.filter (fun d => d ≠ ',') = m.g0 :=
      List.filter_eq_self.mpr fun c hc =>
        decide_eq_true (ne_of_digit (m.g0_digits c hc) (by decide))
    rw [hg0, filter_comma_flatten (fun g hg => (m.gs_ok g hg).1)]
  have hfrac2 : m.fracChars.filter (fun d => d ≠ ',') = m.fracChars := by
    refine List.filter_eq_self.mpr fun c hc => decide_eq_true ?_
    rcases money_fracChars_chars m c hc with h | rfl
    · exact ne_of_digit h (by decide)
    · decide
  rw [hsign2, hint2, hfrac2]

/-- The float parser on a cleaned monetary body: all-digit integer part
followed by an optional dot-fraction parses to the concatenated digits over
the fractional scale. -/
theorem pyFloatAux_shape {D : List Char} (hD : ∀ c ∈ D, c.isDigit = true) (hDne : D ≠ [])
    {F fd : List Char}
    (hF : (F = [] ∧ fd = []) ∨ (∃ f, F = '.' :: f ∧ fd = f ∧ ∀ c ∈ f, c.isDigit = true))
    (neg : Bool) :
    pyFloatAux (D ++ F) neg = some ⟨neg, digitsVal (D ++ fd), fd.length⟩ := by
  rcases hF with ⟨hF1, hfd1⟩ | ⟨f, hF1, hfd1, hf⟩
  · rw [hF1, hfd1]
    unfold pyFloatAux
    rw [takeWhile_append_all hD, dropWhile_append_all hD]
    simp only [List.takeWhile_nil, List.dropWhile_nil, List.append_nil]
    have hfp : fracPartOf [] = [] := rfl
    have hra : restAfterFrac [] = [] := rfl
    rw [hfp, hra]
    rw [if_neg (fun hand => hDne hand.1), if_pos rfl, List.append_nil]
  · rw [hF1, hfd1]
    unfold pyFloatAux
    rw [takeWhile_append_all hD, dropWhile_append_all hD]
    have htf : ('.' :: f).takeWhile Char.isDigit = [] := by
      rw [List.takeWhile_cons, if_neg (by decide)]
    have hdf : ('.' :: f).dropWhile Char.isDigit = '.' :: f := by
      rw [List.dropWhile_cons, if_neg (by decide)]
    rw [htf, hdf, List.append_nil]
    have hfp : fracPartOf ('.' :: f) = f := by
      unfold fracPartOf
      rw [if_pos (show ('.' :: f).head? = some '.' from rfl)]
      exact takeWhile_eq_self_of_all hf
    have hra : restAfterFrac ('.' :: f) = [] := by
      unfold restAfterFrac
      rw [if_pos (show ('.' :: f).head? = some '.' from rfl)]
      exact List.dropWhile_eq_nil_iff.mpr hf
    rw [hfp, hra]
    rw [if_neg (fun hand => hDne hand.1), if_pos rfl]

theorem money_sdf_chars (m : Money) :
    ∀ c ∈ m.signChars ++ (m.g0 ++ m.gs.flatten) ++ m.fracChars, moneyChar c := by
  intro c hc
  rcases List.mem_append.mp hc with hc | hc
  rotate_left
  · rcases money_fracChars_chars m c hc with h | rfl
    · exact Or.inl h
    · exact Or.inr (Or.inr (Or.inr (Or.inr (Or.inr rfl))))
  rcases List.mem_append.mp hc with hc | hc
  · unfold Money.signChars at hc
    cases hs : m.sign with
    | none =>
      rw [hs] at hc
      simp at hc
    | some b =>
      cases b <;> rw [hs] at hc <;> rcases List.mem_singleton.mp hc with rfl
      · exact Or.inr (Or.inr (Or.inl rfl))
      · exact Or.inr (Or.inr (Or.inr (Or.inl rfl)))
  · rcases List.mem_append.mp hc with hc | hc
    · exact Or.inl (m.g0_digits c hc)
    · obtain ⟨g, hg, hcg⟩ := List.mem_flatten.mp hc
      exact Or.inl ((m.gs_ok g hg).1 c hcg)

theorem money_digits_D (m : Money) : ∀ c ∈ m.g0 ++ m.gs.flatten, c.isDigit = true := by
  intro c hc
  rcases List.mem_append.mp hc with hc | hc
  · exact m.g0_digits c hc
  · obtain ⟨g, hg, hcg⟩ := List.mem_flatten.mp hc
    exact (m.gs_ok g hg).1 c hcg

theorem money_D_ne_nil (m : Money) : m.g0 ++ m.gs.flatten ≠ [] := by
  intro h
  exact m.g0_ne (List.append_eq_nil.mp h).1

theorem money_F_shape (m : Money) :
    (m.fracChars = [] ∧ m.fracDigits = []) ∨
      (∃ f, m.fracChars = '.' :: f ∧ m.fracDigits = f ∧ ∀ c ∈ f, c.isDigit = true) := by
  cases hf : m.frac with
  | none =>
    left
    unfold Money.fracChars Money.fracDigits
    rw [hf]
    exact ⟨rfl, rfl⟩
  | some f =>
    right
    refine ⟨f, ?_, ?_, (m.frac_ok f hf).1⟩
    · unfold Money.fracChars
      rw [hf]
    · unfold Money.fracDigits
      rw [hf]

/-- The whole `_clean_currency` cleaning-and-parsing pipeline on a rendered
monetary string parses to its digit content. -/
theorem pyFloat?_money (m : Money) :
    pyFloat? (pyRemove (⟨(pyStrip m.render).data.filter
        (fun c => ¬(c = '$' ∨ c = ' '))⟩ : String) ',') =
      some ⟨m.negB, digitsVal ((m.g0 ++ m.gs.flatten) ++ m.fracDigits),
        m.fracDigits.length⟩ := by
  have hdata : (pyRemove (⟨(pyStrip m.render).data.filter
      (fun c => ¬(c = '$' ∨ c = ' '))⟩ : String) ',').data =
      m.signChars ++ (m.g0 ++ m.gs.flatten) ++ m.fracChars := money_clean_data m
  have hstrip : pyStripL (m.signChars ++ (m.g0 ++ m.gs.flatten) ++ m.fracChars) =
      m.signChars ++ (m.g0 ++ m.gs.flatten) ++ m.fracChars :=
    pyStripL_eq_self_of_all (fun c hc => moneyChar_not_ws (money_sdf_chars m c hc))
  unfold pyFloat?
  rw [hdata, hstrip]
  cases hs : m.sign with
  | none =>
    have hS : m.signChars = [] := by
      unfold Money.signChars
      rw [hs]
    have hneg : m.negB = false := by
      unfold Money.negB
      rw [hs]
    rw [hS, List.nil_append, hneg]
    obtain ⟨d, g0t, hg0⟩ : ∃ d g0t, m.g0 = d :: g0t := by
      cases hm : m.g0 with
      | nil => exact absurd hm m.g0_ne
      | cons a t => exact ⟨a, t, rfl⟩
    have hd : d.isDigit = true := m.g0_digits d (by rw [hg0]; exact List.mem_cons_self d g0t)
    have hhead : ((m.g0 ++ m.gs.flatten) ++ m.fracChars).head? = some d := by
      rw [hg0]
      rfl
    have hne1 : ¬(((m.g0 ++ m.gs.flatten) ++ m.fracChars).head? = some '+') := by
      rw [hhead]
      intro heq
      have hd2 := Option.some.inj heq
      rw [hd2] at hd
      exact absurd hd (by decide)
    have hne2 : ¬(((m.g0 ++ m.gs.flatten) ++ m.fracChars).head? = some '-') := by
      rw [hhead]
      intro heq
      have hd2 := Option.some.inj heq
      rw [hd2] at hd
      exact absurd hd (by decide)
    rw [if_neg hne1, if_neg hne2]
    exact pyFloatAux_shape (money_digits_D m) (money_D_ne_nil m) (money_F_shape m) false
  | some b =>
    cases b with
    | false =>
      have hS : m.signChars = ['+'] := by
        unfold Money.signChars
        rw [hs]
      have hneg : m.negB = false := by
        unfold Money.negB
        rw [hs]
      have hcond : (m.signChars ++ (m.g0 ++ m.gs.flatten) ++ m.fracChars).head? =
          some '+' := by
        rw [hS]
        rfl
      have htail : (m.signChars ++ (m.g0 ++ m.gs.flatten) ++ m.fracChars).tail =
          (m.g0 ++ m.gs.flatten) ++ m.fracChars := by
        rw [hS]
        rfl
      rw [if_pos hcond, htail, hneg]
      exact pyFloatAux_shape (money_digits_D m) (money_D_ne_nil m) (money_F_shape m) false
    | true =>
      have hS : m.signChars = ['-'] := by
        unfold Money.signChars
        rw [hs]
      have hneg : m.negB = true := by
        unfold Money.negB
        rw [hs]
      have hcond : (m.signChars ++ (m.g0 ++ m.gs.flatten) ++ m.fracChars).head? =
          some '-' := by
        rw [hS]
        rfl
      have hne1 : ¬((m.signChars ++ (m.g0 ++ m.gs.flatten) ++ m.fracChars).head? =
          some '+') := by
        rw [hcond]
        intro heq
        exact absurd (Option.some.inj heq) (by decide)
      have htail : (m.signChars ++ (m.g0 ++ m.gs.flatten) ++ m.fracChars).tail =
          (m.g0 ++ m.gs.flatten) ++ m.fracChars := by
        rw [hS]
        rfl
      rw [if_neg hne1, if_pos hcond, htail, hneg]
      exact pyFloatAux_shape (money_digits_D m) (money_D_ne_nil m) (money_F_shape m) true

/-- Every monetary string of the specified shape is parsed by
`_clean_currency` to its decimal value. -/
theorem clean_currency_money (m : Money) :
    clean_currency (some m.render) = m.value := by
  simp only [clean_currency]
  rw [pyFloat?_money m]
  rfl

theorem string_eq_empty_iff (s : String) : s = "" ↔ s.data = [] :=
  ⟨congrArg String.data, fun h => String.ext h⟩

theorem pyLower_eq_empty_iff (s : String) : pyLower s = "" ↔ s = "" := by
  rw [string_eq_empty_iff, string_eq_empty_iff]
  show s.data.map Char.toLower = [] ↔ s.data = []
  rw [List.map_eq_nil_iff]

theorem vKeepCell_eq_spec (c : Option String) : vKeepCell c = specLeftKeep c := by
  cases c with
  | none => rfl
  | some s =>
    show (!((pyLower (pyStrip s) == "total") || (pyLower (pyStrip s) == ""))) =
      ((!(pyStrip s == "")) && (!(pyLower (pyStrip s) == "total")))
    have h1 : (pyLower (pyStrip s) == "") = (pyStrip s == "") := by
      by_cases h : pyStrip s = ""
      · rw [h]
        rfl
      · have h2 : pyLower (pyStrip s) ≠ "" := fun hh =>
          h ((pyLower_eq_empty_iff (pyStrip s)).mp hh)
        rw [beq_eq_false_iff_ne.mpr h2, beq_eq_false_iff_ne.mpr h]
    rw [h1, Bool.not_or, Bool.and_comm]

theorem gKeepCell_eq_spec (c : Option String) : gKeepCell c = specRightKeep c := by
  cases c <;> rfl

theorem load_sheet_ok (sheetName : String) (grid : List (List String)) :
    load_sheet sheetName (Fetch.ok grid) =
      (match loadSheetCore grid (expectedMarker sheetName) with
       | some t => Outcome.returned none t
       | none => Outcome.returned (some NoticeKind.error) Table.empty) := rfl

theorem load_vendidos_ok (grid : List (List String)) :
    load_vendidos_tables (Fetch.ok grid) =
      (match loadVendidosCore grid with
       | some p => Outcome.returned none p
       | none => Outcome.returned (some NoticeKind.error) (Table.empty, Table.empty)) := rfl

/-! ## The claims -/

/-- C1 counterexample: on the scenario grid the single-table pipeline does
NOT produce exactly the single data row `["Widget", "A", "B"]` — the
`"Total"` row survives, because `load_sheet` has no subtotal filter and the
row is not entirely null. -/
theorem C1_counterexample :
    (loadSheetCore c1grid "Producto").map Table.rows ≠
      some [[some "Widget", some "A", some "B"]] := by
  decide

/-- C1 as amended: on the scenario grid the header row is located at index
1 and the normalized table has columns
`["Producto", "Categoría", "Categoría_1"]` and TWO data rows — the widget
row and the `"Total"` row padded with nulls; only the trailing all-blank
row is dropped. -/
theorem C1_scenario :
    findHeaderRow c1grid "Producto" = 1 ∧
      loadSheetCore c1grid "Producto" = some
        { cols := ["Producto", "Categoría", "Categoría_1"]
          rows := [[some "Widget", some "A", some "B"],
            [some "Total", none, none]] } := by
  constructor
  · decide
  · decide

/-- C2 counterexample: when the spreadsheet document cannot be located the
dual-table loader does NOT halt the rendering pass; it reports an error and
returns a pair of empty tables. -/
theorem C2_counterexample :
    load_vendidos_tables Fetch.spreadsheetNotFound ≠ Outcome.halted ∧
      load_vendidos_tables Fetch.spreadsheetNotFound =
        Outcome.returned (some NoticeKind.error) (Table.empty, Table.empty) := by
  constructor
  · intro h
    exact Outcome.noConfusion h
  · rfl

/-- C2 as amended: `load_vendidos_tables` treats every fetch failure
uniformly through its single generic handler — worksheet missing,
spreadsheet missing and any other fetch error all emit a user-facing error
and return a pair of empty tables, and no fetch outcome ever halts the
rendering pass. -/
theorem C2_uniform_failure :
    (∀ f : Fetch, load_vendidos_tables f ≠ Outcome.halted) ∧
      load_vendidos_tables Fetch.worksheetNotFound =
        Outcome.returned (some NoticeKind.error) (Table.empty, Table.empty) ∧
      load_vendidos_tables Fetch.spreadsheetNotFound =
        Outcome.returned (some NoticeKind.error) (Table.empty, Table.empty) ∧
      load_vendidos_tables Fetch.otherError =
        Outcome.returned (some NoticeKind.error) (Table.empty, Table.empty) := by
  refine ⟨?_, rfl, rfl, rfl⟩
  intro f
  cases f with
  | ok grid =>
    intro h
    rw [load_vendidos_ok] at h
    cases hcore : loadVendidosCore grid with
    | none =>
      rw [hcore] at h
      exact Outcome.noConfusion h
    | some p =>
      rw [hcore] at h
      exact Outcome.noConfusion h
  | worksheetNotFound => exact fun h => Outcome.noConfusion h
  | spreadsheetNotFound => exact fun h => Outcome.noConfusion h
  | otherError => exact fun h => Outcome.noConfusion h

/-- C3: `_clean_pct` agrees with the specified percent parser on every
input — strip `%` and whitespace, parse as a float, default `0.0` on
failure or missing input, divide by 100 exactly when the magnitude exceeds
5 — and produces the specified values on the given examples. -/
theorem C3_clean_pct :
    (∀ val : Option String, clean_pct val = parsePercentSpec val) ∧
      clean_pct (some "22.42%") = 0.2242 ∧
      clean_pct (some "0.35") = 0.35 ∧
      clean_pct (some "5.5") = 0.055 ∧
      clean_pct none = 0 ∧
      clean_pct (some "") = 0 ∧
      clean_pct (some "garbage") = 0 := by
  refine ⟨clean_pct_eq_spec, ?_, ?_, ?_, rfl, rfl, rfl⟩
  · have h : pyFloat? (pyRemove (pyStrip "22.42%") '%') = some ⟨false, 2242, 2⟩ := rfl
    simp only [clean_pct, h, PyFloat.toRat, pow10]
    rw [if_pos]
    · norm_num
    · rw [abs_of_nonneg (by norm_num)]
      norm_num
  · have h : pyFloat? (pyRemove (pyStrip "0.35") '%') = some ⟨false, 35, 2⟩ := rfl
    simp only [clean_pct, h, PyFloat.toRat, pow10]
    rw [if_neg]
    · norm_num
    · rw [abs_of_nonneg (by norm_num)]
      norm_num
  · have h : pyFloat? (pyRemove (pyStrip "5.5") '%') = some ⟨false, 55, 1⟩ := rfl
    simp only [clean_pct, h, PyFloat.toRat, pow10]
    rw [if_pos]
    · norm_num
    · rw [abs_of_nonneg (by norm_num)]
      norm_num

/-- C4 counterexample: the dual-table loader does not drop blank-named
columns — a grid whose sales window contains a blank header cell yields a
sales table with an empty column name. -/
theorem C4_counterexample :
    load_vendidos_tables (Fetch.ok c4grid) = Outcome.returned none
      ({ cols := ["Producto", "", "C3", "C4", "C5", "C6", "C7", "C8"]
         rows := [[some "Widget", some "a", some "b", some "c", some "d",
           some "e", some "f", some "g"]] },
       { cols := ["Gasto", "D14", "D15", "D16", "D17", "D18", "D19", "D20"]
         rows := [[some "Luz", some "1", some "2", some "3", some "4",
           some "5", some "6", some "7"]] }) ∧
      "" ∈ ["Producto", "", "C3", "C4", "C5", "C6", "C7", "C8"] := by
  constructor
  · decide
  · decide

/-- C4 as amended: every column name of every table `load_sheet` produces
is nonblank after trimming (blank-named columns are dropped before
de-duplication); `load_vendidos_tables` performs no such drop, so its
tables can carry blank-named columns. -/
theorem C4_load_sheet_no_blank :
    ∀ (grid : List (List String)) (marker : String) (t : Table) (n : String),
      loadSheetCore grid marker = some t → n ∈ t.cols → pyStrip n ≠ "" := by
  intro grid marker t n h hn
  rcases loadSheetCore_cases h with rfl | hcols
  · exact absurd hn (List.not_mem_nil n)
  · rw [hcols] at hn
    exact dedupNames_ne_empty (fun nm hnm => headerNames_spec hnm) hn

/-- C4 witness: the amended theorem applied to the scenario grid. -/
theorem C4_witness : pyStrip "Producto" ≠ "" :=
  C4_load_sheet_no_blank c1grid "Producto"
    { cols := ["Producto", "Categoría", "Categoría_1"]
      rows := [[some "Widget", some "A", some "B"], [some "Total", none, none]] }
    "Producto" (by decide) (by decide)

/-- C5 counterexample: column names are NOT always pairwise distinct after
de-duplication — a header `["Producto", "A", "A", "A_1"]` yields columns
`["Producto", "A", "A_1", "A_1"]`, where the generated suffix collides
with the original header literally named `A_1`. -/
theorem C5_counterexample :
    (loadSheetCore c5grid "Producto").map Table.cols =
        some ["Producto", "A", "A_1", "A_1"] ∧
      ¬ (["Producto", "A", "A_1", "A_1"] : List String).Nodup := by
  constructor
  · decide
  · decide

/-- C5 as amended: the renaming mechanism is exactly as specified — the
name at position `j` keeps its bare form on its first occurrence and
receives suffix `_k` when `k` equal names precede it, which separates
columns of equal original name; but a suffixed name can still collide with
a different original header, so global pairwise distinctness does not
hold. The second part ties the mechanism to the loader: every nonempty
table `load_sheet` produces carries exactly the de-duplicated stripped
header names. -/
theorem C5_dedup_mechanism :
    (∀ (names : List String) (j : Nat), j < names.length →
      (dedupNames names).getD j "" =
        (if (names.take j).countP (fun x => x = names.getD j "") = 0
         then names.getD j ""
         else names.getD j "" ++ "_" ++
           natToStr ((names.take j).countP (fun x => x = names.getD j "")))) ∧
      (∀ (grid : List (List String)) (marker : String) (t : Table),
        loadSheetCore grid marker = some t → t.rows ≠ [] →
          t.cols = dedupNames (headerNames (sheetHeaders grid marker))) := by
  constructor
  · intro names j hj
    have h := dedupGo_getD names (fun _ => none) j hj
    rw [show occOf none = 0 from rfl, Nat.zero_add] at h
    exact h
  · intro grid marker t h hrows
    rcases loadSheetCore_cases h with rfl | hcols
    · exact absurd rfl hrows
    · exact hcols

/-- C5 witness: the renaming mechanism applied to a duplicated name. -/
theorem C5_witness :
    (dedupNames ["A", "A"]).getD 1 "" =
      (if ((["A", "A"] : List String).take 1).countP
          (fun x => x = (["A", "A"] : List String).getD 1 "") = 0
       then (["A", "A"] : List String).getD 1 ""
       else (["A", "A"] : List String).getD 1 "" ++ "_" ++
         natToStr (((["A", "A"] : List String).take 1).countP
           (fun x => x = (["A", "A"] : List String).getD 1 ""))) :=
  C5_dedup_mechanism.1 ["A", "A"] 1 (by decide)

/-- C6 counterexample: `"1e3"` is not of the monetary shape
`[$][sign]digits[,digits]*[.digits]` (no rendering of the shape contains
the letter `e`), yet `_clean_currency` returns `1000.0` for it, not the
claimed `0.0`. -/
theorem C6_counterexample :
    clean_currency (some "1e3") = 1000 ∧
      ¬ ∃ m : Money, m.render = "1e3" := by
  constructor
  · have h : pyFloat? (pyRemove (⟨(pyStrip "1e3").data.filter
        (fun c => ¬(c = '$' ∨ c = ' '))⟩ : String) ',') = some ⟨false, 1000, 0⟩ := rfl
    simp only [clean_currency, h, PyFloat.toRat, pow10]
    norm_num
  · rintro ⟨m, hm⟩
    have hdata : m.renderL = "1e3".data := congrArg String.data hm
    apply money_renderL_no_e m
    rw [hdata]
    decide

/-- C6 as amended: every monetary string of the shape
`[$][sign]digits[,digits]*[.digits]` parses to its decimal value, and
missing, empty or unparsable input gives exactly `0.0`; but the rule that
everything outside the shape gives `0.0` fails — any other string whose
cleaned form is a float literal, such as exponent notation `"1e3"`,
parses to its float value instead. -/
theorem C6_clean_currency :
    (∀ m : Money, clean_currency (some m.render) = m.value) ∧
      clean_currency (some "$1,234.56") = 1234.56 ∧
      clean_currency none = 0 ∧
      clean_currency (some "") = 0 ∧
      clean_currency (some "hola mundo") = 0 ∧
      clean_currency (some "1e3") = 1000 := by
  refine ⟨clean_currency_money, ?_, rfl, rfl, rfl, ?_⟩
  · have h : pyFloat? (pyRemove (⟨(pyStrip "$1,234.56").data.filter
        (fun c => ¬(c = '$' ∨ c = ' '))⟩ : String) ',') = some ⟨false, 123456, 2⟩ := rfl
    simp only [clean_currency, h, PyFloat.toRat, pow10]
    norm_num
  · have h : pyFloat? (pyRemove (⟨(pyStrip "1e3").data.filter
        (fun c => ¬(c = '$' ∨ c = ' '))⟩ : String) ',') = some ⟨false, 1000, 0⟩ := rfl
    simp only [clean_currency, h, PyFloat.toRat, pow10]
    norm_num

/-- C6 witness: the shape theorem applied to the rendering of
`$1,234.56`. -/
theorem C6_witness :
    clean_currency (some moneyExample.render) = moneyExample.value :=
  C6_clean_currency.1 moneyExample

/-- C7 counterexample: the row filters do NOT apply to every grid — when
the sales window's first stripped header name is blank, the source's
`if fc:` guard is falsy and the sales block keeps every row, so a row
whose left first cell is `"Total"` (which the claimed filter would drop)
survives in the sales table. -/
theorem C7_counterexample :
    loadVendidosCore c7blankGrid = some
      ({ cols := ["", "C2", "C3", "C4", "C5", "C6", "C7", "C8"]
         rows := [[some "Total", some "a", some "b", some "c", some "d",
           some "e", some "f", some "g"]] },
       { cols := ["Gasto", "D14", "D15", "D16", "D17", "D18", "D19", "D20"]
         rows := [[some "GastoA", some "1", some "2", some "3", some "4",
           some "5", some "6", some "7"]] }) ∧
      specLeftKeep (some "Total") = false := by
  constructor
  · decide
  · decide

/-- C7 as amended: the two block filters are independent and exactly as
specified PROVIDED each block's first stripped header name is nonblank
(the source guards each block's filtering with `if fc:` / `if fg:`, so a
blank first name skips that block's filter entirely): on that path a data
row appears in the sales table exactly when its left first cell is
present, nonblank and not `"total"` case-insensitively, and appears in
the expenses table exactly when its right first cell is present and
nonblank; in particular a left `"Total"` row is excluded on the left
while the same spreadsheet row stays on the right whenever its right
first cell is nonblank. -/
theorem C7_filters_independent :
    ∀ (headers : List String) (data : List (List String)),
      rowHasMarker "Producto" headers = true →
      data ≠ [] →
      (blockHeaders headers vIdxs).length = 8 ∧
        (blockHeaders headers gIdxs).length = 8 →
      (blockHeaders headers vIdxs).getD 0 "" ≠ "" ∧
        (blockHeaders headers gIdxs).getD 0 "" ≠ "" →
      (blockHeaders headers vIdxs).countP
          (fun x => x = (blockHeaders headers vIdxs).getD 0 "") = 1 ∧
        (blockHeaders headers gIdxs).countP
          (fun x => x = (blockHeaders headers gIdxs).getD 0 "") = 1 →
      ∃ tv tg, loadVendidosCore (headers :: data) = some (tv, tg) ∧
        (∀ r ∈ data, (blockRow r vIdxs ∈ tv.rows ↔
          specLeftKeep (emptyToNone (r.getD 1 "")) = true)) ∧
        (∀ r ∈ data, (blockRow r gIdxs ∈ tg.rows ↔
          specRightKeep (emptyToNone (r.getD 13 "")) = true)) := by
  intro headers data hm hd h8 h0 hu
  refine ⟨_, _, loadVendidosCore_normal hm hd h8 h0 hu, ?_, ?_⟩
  · intro r hr
    constructor
    · intro hmem
      have hpred := (List.mem_filter.mp hmem).2
      rw [← vKeepCell_eq_spec]
      exact hpred
    · intro hspec
      refine List.mem_filter.mpr ⟨List.mem_map.mpr ⟨r, hr, rfl⟩, ?_⟩
      show vKeepCell ((blockRow r vIdxs).getD 0 none) = true
      rw [vKeepCell_eq_spec]
      exact hspec
  · intro r hr
    constructor
    · intro hmem
      have hpred := (List.mem_filter.mp hmem).2
      rw [← gKeepCell_eq_spec]
      exact hpred
    · intro hspec
      refine List.mem_filter.mpr ⟨List.mem_map.mpr ⟨r, hr, rfl⟩, ?_⟩
      show gKeepCell ((blockRow r gIdxs).getD 0 none) = true
      rw [gKeepCell_eq_spec]
      exact hspec

/-- C7 witness: the scenario grid with a left subtotal row — the theorem
instantiated at its header and data rows. -/
theorem C7_witness :
    ∃ tv tg, loadVendidosCore (c7headers :: c7data) = some (tv, tg) ∧
      (∀ r ∈ c7data, (blockRow r vIdxs ∈ tv.rows ↔
        specLeftKeep (emptyToNone (r.getD 1 "")) = true)) ∧
      (∀ r ∈ c7data, (blockRow r gIdxs ∈ tg.rows ↔
        specRightKeep (emptyToNone (r.getD 13 "")) = true)) :=
  C7_filters_independent c7headers c7data (by decide) (by decide)
    ⟨by decide, by decide⟩ ⟨by decide, by decide⟩ ⟨by decide, by decide⟩

/-- C8: the single-table loader has the specified three-way failure
policy — worksheet missing warns and returns an empty table, spreadsheet
missing halts the rendering pass, any other fetch error reports an error
and returns an empty table — and the spreadsheet-missing signal is the
only fetch outcome that ever halts. -/
theorem C8_failure_policy :
    ∀ sheetName : String,
      load_sheet sheetName Fetch.worksheetNotFound =
        Outcome.returned (some NoticeKind.warning) Table.empty ∧
      load_sheet sheetName Fetch.spreadsheetNotFound = Outcome.halted ∧
      load_sheet sheetName Fetch.otherError =
        Outcome.returned (some NoticeKind.error) Table.empty ∧
      (∀ f : Fetch, load_sheet sheetName f = Outcome.halted →
        f = Fetch.spreadsheetNotFound) := by
  intro sheetName
  refine ⟨rfl, rfl, rfl, ?_⟩
  intro f hf
  cases f with
  | ok grid =>
    exfalso
    rw [load_sheet_ok] at hf
    cases hcore : loadSheetCore grid (expectedMarker sheetName) with
    | none =>
      rw [hcore] at hf
      exact Outcome.noConfusion hf
    | some t =>
      rw [hcore] at hf
      exact Outcome.noConfusion hf
  | worksheetNotFound => exact absurd hf (fun h => Outcome.noConfusion h)
  | spreadsheetNotFound => rfl
  | otherError => exact absurd hf (fun h => Outcome.noConfusion h)

/-- C9 counterexample: a grid in which EVERY data row is shorter than the
header row does not get padded — the DataFrame construction fails
internally and `load_sheet` returns an empty table with an error notice
instead of a table containing the padded row. -/
theorem C9_counterexample :
    loadSheetCore c9gridBad "Producto" = none ∧
      load_sheet "Pedidos" (Fetch.ok c9gridBad) =
        Outcome.returned (some NoticeKind.error) Table.empty := by
  constructor
  · decide
  · decide

/-- C9 as amended: a short data row is padded with nulls and never raises,
PROVIDED the widest data row matches the header width (in
`load_vendidos_tables` the windows always pad); when every data row is
shorter than the header, `load_sheet` fails internally and degrades to an
empty table instead. The first part states no-failure on the normal path,
the later parts exhibit the padding in both loaders. -/
theorem C9_ragged_padding :
    (∀ (marker : String) (headers : List String) (data : List (List String)),
      rowHasMarker marker headers = true → data ≠ [] →
      maxRowLen data = headers.length →
      (loadSheetCore (headers :: data) marker).isSome = true) ∧
      loadSheetCore c9gridOk "Producto" = some
        { cols := ["Producto", "A", "B"]
          rows := [[some "x", some "y", some "z"], [some "w", some "v", none]] } ∧
      loadVendidosCore c9gridVend = some
        ({ cols := ["Producto", "C2", "C3", "C4", "C5", "C6", "C7", "C8"]
           rows := [[some "Prod1", some "x", none, none, none, none, none, none]] },
         { cols := ["Gasto", "D14", "D15", "D16", "D17", "D18", "D19", "D20"]
           rows := [] }) := by
  refine ⟨?_, by decide, by decide⟩
  intro marker headers data hm hd hw
  rw [loadSheetCore_normal hm hd hw]
  rfl

/-- C9 witness: the no-failure statement applied to the grid with one
short row. -/
theorem C9_witness :
    (loadSheetCore (["Producto", "A", "B"] ::
      [["x", "y", "z"], ["w", "v"]]) "Producto").isSome = true :=
  C9_ragged_padding.1 "Producto" ["Producto", "A", "B"]
    [["x", "y", "z"], ["w", "v"]] (by decide) (by decide) (by decide)

/-- C10: every column name of every table `load_sheet` produces is
trimmed — stripping it changes nothing — and two header cells differing
only in surrounding whitespace are treated as duplicates, the later one
receiving a numeric suffix. -/
theorem C10_trimmed_columns :
    (∀ (grid : List (List String)) (marker : String) (t : Table) (n : String),
      loadSheetCore grid marker = some t → n ∈ t.cols → pyStrip n = n) ∧
      (loadSheetCore c10grid "Producto").map Table.cols =
        some ["Producto", "Name", "Name_1"] := by
  constructor
  · intro grid marker t n h hn
    rcases loadSheetCore_cases h with rfl | hcols
    · exact absurd hn (List.not_mem_nil n)
    · rw [hcols] at hn
      exact dedupNames_strip_self (fun nm hnm => (headerNames_spec hnm).1) hn
  · decide

/-- C10 witness: the trimming invariant applied to the suffixed column of
the whitespace-duplicate grid. -/
theorem C10_witness : pyStrip "Name_1" = "Name_1" :=
  C10_trimmed_columns.1 c10grid "Producto"
    { cols := ["Producto", "Name", "Name_1"]
      rows := [[some "w", some "x", some "y"]] }
    "Name_1" (by decide) (by decide)
